import Mathlib

/-!
Verification of the snappi auto-zoom viewport pipeline.

Shallow embedding of the TypeScript sources:
  * `src/lib/springMath.ts` — critically damped spring (`Spring.update`),
    viewport replay (`computeViewportAt`) and clamping (`makeViewport`);
  * `src/lib/zoomSegments.ts` — `segmentsToKeyframes`;
  * `src/components/VideoPlayer.tsx` — frame-timestamp derivation
    (`msPerFrame`, `currentTimeMs`).

JavaScript numbers are modelled as real numbers (`ℝ`), `Math.exp` as
`Real.exp`, `Math.max`/`Math.min` as `max`/`min`.  `Array.prototype.sort`
(a stable sort in JS) is modelled by `List.insertionSort`, which is stable
for the same comparator.
-/

namespace Snappi

open Filter

/-- The constant `LN_2` from springMath.ts (a literal, not `Real.log 2`). -/
def LN_2 : ℝ := 0.693147180559945

/-- The constant `EPSILON = 1e-5` from springMath.ts. -/
def EPSILON : ℝ := 1e-5

/-- Spring state, as in class `Spring` of springMath.ts. -/
structure Spring where
  position : ℝ
  velocity : ℝ
  target : ℝ

/-- `new Spring(initial)`: position = target = initial, velocity = 0. -/
def Spring.init (initial : ℝ) : Spring :=
  { position := initial, velocity := 0, target := initial }

/-- `Spring.update(halfLife, dt)` from springMath.ts: the closed-form
critically damped step.  `if (dt <= 0) return;` is the silent no-op guard. -/
noncomputable def Spring.update (s : Spring) (halfLife dt : ℝ) : Spring :=
  if dt ≤ 0 then s
  else
    let y : ℝ := 4 * LN_2 / max halfLife EPSILON
    let yHalf : ℝ := y / 2
    let j0 : ℝ := s.position - s.target
    let j1 : ℝ := s.velocity + j0 * yHalf
    let eydt : ℝ := Real.exp (-yHalf * dt)
    { position := eydt * (j0 + j1 * dt) + s.target
      velocity := eydt * (s.velocity - j1 * yHalf * dt)
      target := s.target }

/-- `ViewportRect` from springMath.ts. -/
structure ViewportRect where
  x : ℝ
  y : ℝ
  width : ℝ
  height : ℝ
  zoom : ℝ

/-- `makeViewport` from springMath.ts: clamp the spring state to a viewport
rectangle inside the screen. -/
noncomputable def makeViewport (cx cy zoomSpring : Spring)
    (screenWidth screenHeight : ℝ) : ViewportRect :=
  let zoom := max zoomSpring.position 1.0
  let vpW := screenWidth / zoom
  let vpH := screenHeight / zoom
  let x := max 0 (min (screenWidth - vpW) (cx.position - vpW / 2))
  let y := max 0 (min (screenHeight - vpH) (cy.position - vpH / 2))
  { x := x, y := y, width := vpW, height := vpH, zoom := zoom }

/-- `TransitionType` from types.ts. -/
inductive TransitionType where
  | SpringIn
  | SpringOut
  | Smooth
deriving DecidableEq

/-- `SpringHint` from types.ts. -/
structure SpringHint where
  zoom_half_life : ℝ
  pan_half_life : ℝ

/-- `ZoomKeyframe` from types.ts. -/
structure ZoomKeyframe where
  time_ms : ℝ
  target_x : ℝ
  target_y : ℝ
  zoom_level : ℝ
  transition : TransitionType
  spring_hint : Option SpringHint

/-- `msPerFrame` from VideoPlayer.tsx:
`frameCount > 0 ? durationMs / frameCount : 33.33`. -/
noncomputable def msPerFrame (frameCount : ℕ) (durationMs : ℝ) : ℝ :=
  if 0 < frameCount then durationMs / frameCount else 33.33

/-- `currentTimeMs` from VideoPlayer.tsx: `(currentFrame() - 1) * msPerFrame()`
for the 1-based frame index `currentFrame`. -/
noncomputable def currentTimeMs (frameCount : ℕ) (durationMs : ℝ)
    (currentFrame : ℕ) : ℝ :=
  ((currentFrame : ℝ) - 1) * msPerFrame frameCount durationMs

/- ### Small facts about the constants -/

lemma LN_2_pos : 0 < LN_2 := by norm_num [LN_2]

lemma EPSILON_pos : 0 < EPSILON := by norm_num [EPSILON]

/- ### Theorems -/

/-- **C2.** For every spring state and every screen with positive dimensions,
the viewport rectangle derived by `makeViewport` lies within
`[0, screen_w] × [0, screen_h]` and has positive width and height. -/
theorem makeViewport_bounded (cx cy zoomSpring : Spring) (screenWidth screenHeight : ℝ)
    (hw : 0 < screenWidth) (hh : 0 < screenHeight) :
    0 ≤ (makeViewport cx cy zoomSpring screenWidth screenHeight).x ∧
    (makeViewport cx cy zoomSpring screenWidth screenHeight).x +
      (makeViewport cx cy zoomSpring screenWidth screenHeight).width ≤ screenWidth ∧
    0 ≤ (makeViewport cx cy zoomSpring screenWidth screenHeight).y ∧
    (makeViewport cx cy zoomSpring screenWidth screenHeight).y +
      (makeViewport cx cy zoomSpring screenWidth screenHeight).height ≤ screenHeight ∧
    0 < (makeViewport cx cy zoomSpring screenWidth screenHeight).width ∧
    0 < (makeViewport cx cy zoomSpring screenWidth screenHeight).height := by
  have hzoom : (1 : ℝ) ≤ max zoomSpring.position 1.0 :=
    le_trans (by norm_num) (le_max_right zoomSpring.position 1.0)
  have hzoom0 : (0 : ℝ) < max zoomSpring.position 1.0 := lt_of_lt_of_le one_pos hzoom
  have hwpos : 0 < screenWidth / max zoomSpring.position 1.0 := div_pos hw hzoom0
  have hhpos : 0 < screenHeight / max zoomSpring.position 1.0 := div_pos hh hzoom0
  have hwle : screenWidth / max zoomSpring.position 1.0 ≤ screenWidth :=
    div_le_self hw.le hzoom
  have hhle : screenHeight / max zoomSpring.position 1.0 ≤ screenHeight :=
    div_le_self hh.le hzoom
  refine ⟨le_max_left _ _, ?_, le_max_left _ _, ?_, hwpos, hhpos⟩
  · have h1 : min (screenWidth - screenWidth / max zoomSpring.position 1.0)
        (cx.position - screenWidth / max zoomSpring.position 1.0 / 2) ≤
        screenWidth - screenWidth / max zoomSpring.position 1.0 := min_le_left _ _
    have h2 : max 0 (min (screenWidth - screenWidth / max zoomSpring.position 1.0)
        (cx.position - screenWidth / max zoomSpring.position 1.0 / 2)) ≤
        screenWidth - screenWidth / max zoomSpring.position 1.0 :=
      max_le (by linarith) h1
    simp only [makeViewport]
    linarith
  · have h1 : min (screenHeight - screenHeight / max zoomSpring.position 1.0)
        (cy.position - screenHeight / max zoomSpring.position 1.0 / 2) ≤
        screenHeight - screenHeight / max zoomSpring.position 1.0 := min_le_left _ _
    have h2 : max 0 (min (screenHeight - screenHeight / max zoomSpring.position 1.0)
        (cy.position - screenHeight / max zoomSpring.position 1.0 / 2)) ≤
        screenHeight - screenHeight / max zoomSpring.position 1.0 :=
      max_le (by linarith) h1
    simp only [makeViewport]
    linarith

/-- Witness for C2 at a concrete spring state and a 1920×1080 screen. -/
theorem makeViewport_bounded_witness :
    (0 : ℝ) < 1920 ∧ (0 : ℝ) < 1080 ∧
    (0 ≤ (makeViewport ⟨5000, 3, -7⟩ ⟨-200, 0, 4⟩ ⟨2.5, 1, 3⟩ 1920 1080).x ∧
     (makeViewport ⟨5000, 3, -7⟩ ⟨-200, 0, 4⟩ ⟨2.5, 1, 3⟩ 1920 1080).x +
       (makeViewport ⟨5000, 3, -7⟩ ⟨-200, 0, 4⟩ ⟨2.5, 1, 3⟩ 1920 1080).width ≤ 1920 ∧
     0 ≤ (makeViewport ⟨5000, 3, -7⟩ ⟨-200, 0, 4⟩ ⟨2.5, 1, 3⟩ 1920 1080).y ∧
     (makeViewport ⟨5000, 3, -7⟩ ⟨-200, 0, 4⟩ ⟨2.5, 1, 3⟩ 1920 1080).y +
       (makeViewport ⟨5000, 3, -7⟩ ⟨-200, 0, 4⟩ ⟨2.5, 1, 3⟩ 1920 1080).height ≤ 1080 ∧
     0 < (makeViewport ⟨5000, 3, -7⟩ ⟨-200, 0, 4⟩ ⟨2.5, 1, 3⟩ 1920 1080).width ∧
     0 < (makeViewport ⟨5000, 3, -7⟩ ⟨-200, 0, 4⟩ ⟨2.5, 1, 3⟩ 1920 1080).height) :=
  ⟨by norm_num, by norm_num,
    makeViewport_bounded ⟨5000, 3, -7⟩ ⟨-200, 0, 4⟩ ⟨2.5, 1, 3⟩ 1920 1080
      (by norm_num) (by norm_num)⟩

/-- **C5 (counterexample).** The claim says the effective timestamp of frame `i`
is `i · duration_ms / frame_count`; the code computes
`(i − 1) · duration_ms / frame_count`, so already at frame 1 (with
`frame_count = 10`, `duration_ms = 1000`) the code yields `0`, not `100`. -/
theorem currentTimeMs_frame_one_ne_claimed :
    currentTimeMs 10 1000 1 ≠ 1 * 1000 / 10 := by
  norm_num [currentTimeMs, msPerFrame]

/-- **C5 (amended).** For `frame_count > 0` and a 1-based frame index `i`, the
effective timestamp of frame `i` equals `(i − 1) · duration_ms / frame_count`;
in particular the first frame's timestamp is `0`. -/
theorem currentTimeMs_formula (frameCount : ℕ) (durationMs : ℝ) (i : ℕ)
    (hfc : 0 < frameCount) :
    currentTimeMs frameCount durationMs i = ((i : ℝ) - 1) * durationMs / frameCount ∧
    currentTimeMs frameCount durationMs 1 = 0 := by
  constructor
  · rw [currentTimeMs, msPerFrame, if_pos hfc]
    ring
  · rw [currentTimeMs, msPerFrame, if_pos hfc]
    norm_num

/-- Witness for the amended C5 at `frame_count = 10`, `duration_ms = 1000`,
frame `i = 4`. -/
theorem currentTimeMs_formula_witness :
    0 < 10 ∧
    (currentTimeMs 10 1000 4 = ((4 : ℝ) - 1) * 1000 / 10 ∧
     currentTimeMs 10 1000 1 = 0) :=
  ⟨by norm_num, currentTimeMs_formula 10 1000 4 (by norm_num)⟩

/-- **C8 (counterexample).** The claim says a call with `dt < 0` is rejected as
an error; in the code `if (dt <= 0) return;` makes it a silent no-op: at
`dt = −1` the spring state is returned unchanged, with no error signalled. -/
theorem spring_update_neg_dt_silent_noop :
    Spring.update ⟨1, 2, 3⟩ 0.25 (-1) = ⟨1, 2, 3⟩ := by
  rw [Spring.update, if_pos (by norm_num : (-1 : ℝ) ≤ 0)]

/-- **C8 (amended).** `Spring.update` treats `dt ≤ 0` as a silent no-op
(returning the state unchanged, with no error), while a non-positive or too
small half-life does not fail but is collapsed to `ε = 1e-5` — updating with
half-life `h ≤ ε` is identical to updating with `ε`. -/
theorem spring_update_noop_and_halflife_clamp (s : Spring) (h dt : ℝ) :
    (dt ≤ 0 → s.update h dt = s) ∧
    (h ≤ EPSILON → s.update h dt = s.update EPSILON dt) := by
  constructor
  · intro hdt
    rw [Spring.update, if_pos hdt]
  · intro hheps
    by_cases hdt : dt ≤ 0
    · rw [Spring.update, if_pos hdt, Spring.update, if_pos hdt]
    · rw [Spring.update, if_neg hdt, Spring.update, if_neg hdt,
        max_eq_right hheps, max_self]

/-- Witness for the amended C8 at concrete inputs: `dt = −1` is a no-op, and
half-life `0` behaves exactly like half-life `ε`. -/
theorem spring_update_noop_and_halflife_clamp_witness :
    Spring.update ⟨4, 5, 6⟩ 0.3 (-1) = ⟨4, 5, 6⟩ ∧
    Spring.update ⟨4, 5, 6⟩ 0 2 = Spring.update ⟨4, 5, 6⟩ EPSILON 2 :=
  ⟨(spring_update_noop_and_halflife_clamp ⟨4, 5, 6⟩ 0.3 (-1)).1 (by norm_num),
   (spring_update_noop_and_halflife_clamp ⟨4, 5, 6⟩ 0 2).2 (by norm_num [EPSILON])⟩

/- ### Spring iteration: closed form and convergence (C4) -/

/-- `n` repeated calls of `Spring.update` with fixed half-life and `dt`. -/
noncomputable def Spring.iterate (s : Spring) (halfLife dt : ℝ) : ℕ → Spring
  | 0 => s
  | n + 1 => (s.iterate halfLife dt n).update halfLife dt

lemma Spring.update_target (s : Spring) (h dt : ℝ) :
    (s.update h dt).target = s.target := by
  rw [Spring.update]
  split <;> rfl

lemma yHalf_pos (h : ℝ) : 0 < 4 * LN_2 / max h EPSILON / 2 := by
  have h1 : 0 < max h EPSILON := lt_max_of_lt_right EPSILON_pos
  have h2 : 0 < 4 * LN_2 := by linarith [LN_2_pos]
  positivity

/-- Closed form for `n` iterated spring updates with `0 < dt`:
with decay `E = exp(−yHalf·dt)` and drift `K = yHalf·dt·(p−g) + dt·v`,
the `n`-th state is `(g + Eⁿ·((p−g) + n·K), Eⁿ·(v − n·yHalf·K))`. -/
lemma Spring.iterate_closed_form (s : Spring) (h dt : ℝ) (hdt : 0 < dt) (n : ℕ) :
    (s.iterate h dt n).position =
      Real.exp (-(4 * LN_2 / max h EPSILON / 2) * dt) ^ n *
        ((s.position - s.target) +
          n * (4 * LN_2 / max h EPSILON / 2 * dt * (s.position - s.target) +
            dt * s.velocity)) + s.target ∧
    (s.iterate h dt n).velocity =
      Real.exp (-(4 * LN_2 / max h EPSILON / 2) * dt) ^ n *
        (s.velocity - n * (4 * LN_2 / max h EPSILON / 2 *
          (4 * LN_2 / max h EPSILON / 2 * dt * (s.position - s.target) +
            dt * s.velocity))) ∧
    (s.iterate h dt n).target = s.target := by
  induction n with
  | zero =>
    simp [Spring.iterate]
  | succ n ih =>
    obtain ⟨hp, hv, ht⟩ := ih
    have hne : ¬ dt ≤ 0 := not_le.mpr hdt
    refine ⟨?_, ?_, ?_⟩
    · show ((s.iterate h dt n).update h dt).position = _
      rw [Spring.update, if_neg hne]
      simp only [hp, hv, ht]
      push_cast
      ring
    · show ((s.iterate h dt n).update h dt).velocity = _
      rw [Spring.update, if_neg hne]
      simp only [hp, hv, ht]
      push_cast
      ring
    · show ((s.iterate h dt n).update h dt).target = s.target
      rw [Spring.update_target, ht]

/-- **C4.** For every half-life `h > 0` and `dt ≥ 0`, a single `Spring.update`
produces bounded values — the exponential factor only shrinks the
pre-exponential terms — and for every fixed `dt > 0`, iterating `update`
with a fixed target converges: position tends to the target and velocity
tends to `0`. -/
theorem spring_update_stable_and_convergent (s : Spring) (h dt : ℝ)
    (hh : 0 < h) (hdt : 0 ≤ dt) :
    |(s.update h dt).position - s.target| ≤
      |s.position - s.target +
        (s.velocity + (s.position - s.target) * (4 * LN_2 / max h EPSILON / 2)) * dt| ∧
    |(s.update h dt).velocity| ≤
      |s.velocity - (s.velocity + (s.position - s.target) * (4 * LN_2 / max h EPSILON / 2)) *
        (4 * LN_2 / max h EPSILON / 2) * dt| ∧
    (0 < dt →
      Tendsto (fun n => (s.iterate h dt n).position) atTop (nhds s.target) ∧
      Tendsto (fun n => (s.iterate h dt n).velocity) atTop (nhds 0)) := by
  have ha : 0 < 4 * LN_2 / max h EPSILON / 2 := yHalf_pos h
  refine ⟨?_, ?_, ?_⟩
  · rcases le_or_lt dt 0 with hle | hgt
    · have hdt0 : dt = 0 := le_antisymm hle hdt
      rw [Spring.update, if_pos hle, hdt0]
      simp
    · rw [Spring.update, if_neg (not_le.mpr hgt)]
      have hE : Real.exp (-(4 * LN_2 / max h EPSILON / 2) * dt) ≤ 1 := by
        rw [Real.exp_le_one_iff]
        nlinarith
      have hE0 : 0 < Real.exp (-(4 * LN_2 / max h EPSILON / 2) * dt) := Real.exp_pos _
      simp only
      rw [add_sub_cancel_right, abs_mul, abs_of_pos hE0]
      calc Real.exp (-(4 * LN_2 / max h EPSILON / 2) * dt) *
            |s.position - s.target +
              (s.velocity + (s.position - s.target) * (4 * LN_2 / max h EPSILON / 2)) * dt| ≤
          1 * |s.position - s.target +
              (s.velocity + (s.position - s.target) * (4 * LN_2 / max h EPSILON / 2)) * dt| := by
            apply mul_le_mul_of_nonneg_right hE (abs_nonneg _)
        _ = _ := one_mul _
  · rcases le_or_lt dt 0 with hle | hgt
    · have hdt0 : dt = 0 := le_antisymm hle hdt
      rw [Spring.update, if_pos hle, hdt0]
      simp
    · rw [Spring.update, if_neg (not_le.mpr hgt)]
      have hE : Real.exp (-(4 * LN_2 / max h EPSILON / 2) * dt) ≤ 1 := by
        rw [Real.exp_le_one_iff]
        nlinarith
      have hE0 : 0 < Real.exp (-(4 * LN_2 / max h EPSILON / 2) * dt) := Real.exp_pos _
      simp only
      rw [abs_mul, abs_of_pos hE0]
      have hrw : s.velocity -
          (s.velocity + (s.position - s.target) * (4 * LN_2 / max h EPSILON / 2)) *
            (4 * LN_2 / max h EPSILON / 2) * dt =
          s.velocity -
          (s.velocity + (s.position - s.target) * (4 * LN_2 / max h EPSILON / 2)) *
            (4 * LN_2 / max h EPSILON / 2) * dt := rfl
      calc Real.exp (-(4 * LN_2 / max h EPSILON / 2) * dt) *
            |s.velocity -
              (s.velocity + (s.position - s.target) * (4 * LN_2 / max h EPSILON / 2)) *
                (4 * LN_2 / max h EPSILON / 2) * dt| ≤
          1 * |s.velocity -
              (s.velocity + (s.position - s.target) * (4 * LN_2 / max h EPSILON / 2)) *
                (4 * LN_2 / max h EPSILON / 2) * dt| := by
            apply mul_le_mul_of_nonneg_right hE (abs_nonneg _)
        _ = _ := one_mul _
  · intro hgt
    have hE0 : (0 : ℝ) ≤ Real.exp (-(4 * LN_2 / max h EPSILON / 2) * dt) :=
      (Real.exp_pos _).le
    have hE1 : Real.exp (-(4 * LN_2 / max h EPSILON / 2) * dt) < 1 := by
      rw [Real.exp_lt_one_iff]
      nlinarith
    have T1 : Tendsto
        (fun n : ℕ => Real.exp (-(4 * LN_2 / max h EPSILON / 2) * dt) ^ n)
        atTop (nhds 0) :=
      tendsto_pow_atTop_nhds_zero_of_lt_one hE0 hE1
    have T2 : Tendsto
        (fun n : ℕ => (n : ℝ) * Real.exp (-(4 * LN_2 / max h EPSILON / 2) * dt) ^ n)
        atTop (nhds 0) :=
      tendsto_self_mul_const_pow_of_lt_one hE0 hE1
    constructor
    · have base : Tendsto
          (fun n : ℕ => Real.exp (-(4 * LN_2 / max h EPSILON / 2) * dt) ^ n *
            (s.position - s.target) +
            ((n : ℝ) * Real.exp (-(4 * LN_2 / max h EPSILON / 2) * dt) ^ n) *
              (4 * LN_2 / max h EPSILON / 2 * dt * (s.position - s.target) +
                dt * s.velocity) + s.target)
          atTop (nhds (0 * (s.position - s.target) +
            0 * (4 * LN_2 / max h EPSILON / 2 * dt * (s.position - s.target) +
              dt * s.velocity) + s.target)) :=
        Tendsto.add_const _ ((T1.mul_const _).add (T2.mul_const _))
      rw [zero_mul, zero_mul, add_zero, zero_add] at base
      refine base.congr fun n => ?_
      rw [(Spring.iterate_closed_form s h dt hgt n).1]
      ring
    · have base : Tendsto
          (fun n : ℕ => Real.exp (-(4 * LN_2 / max h EPSILON / 2) * dt) ^ n *
            s.velocity -
            ((n : ℝ) * Real.exp (-(4 * LN_2 / max h EPSILON / 2) * dt) ^ n) *
              (4 * LN_2 / max h EPSILON / 2 *
                (4 * LN_2 / max h EPSILON / 2 * dt * (s.position - s.target) +
                  dt * s.velocity)))
          atTop (nhds (0 * s.velocity -
            0 * (4 * LN_2 / max h EPSILON / 2 *
              (4 * LN_2 / max h EPSILON / 2 * dt * (s.position - s.target) +
                dt * s.velocity)))) :=
        (T1.mul_const _).sub (T2.mul_const _)
      rw [zero_mul, zero_mul, sub_zero] at base
      refine base.congr fun n => ?_
      rw [(Spring.iterate_closed_form s h dt hgt n).2.1]
      ring

/-- Witness for C4: a spring at position 0 with target 1, half-life 1 s,
step 1 s. -/
theorem spring_update_stable_and_convergent_witness :
    (0 : ℝ) < 1 ∧ (0 : ℝ) ≤ 1 ∧
    (|((Spring.init 0).update 1 1).position - (Spring.init 0).target| ≤
      |(Spring.init 0).position - (Spring.init 0).target +
        ((Spring.init 0).velocity + ((Spring.init 0).position - (Spring.init 0).target) *
          (4 * LN_2 / max 1 EPSILON / 2)) * 1| ∧
    |((Spring.init 0).update 1 1).velocity| ≤
      |(Spring.init 0).velocity - ((Spring.init 0).velocity +
        ((Spring.init 0).position - (Spring.init 0).target) *
          (4 * LN_2 / max 1 EPSILON / 2)) * (4 * LN_2 / max 1 EPSILON / 2) * 1| ∧
    ((0 : ℝ) < 1 →
      Tendsto (fun n => ((Spring.init 0).iterate 1 1 n).position) atTop
        (nhds (Spring.init 0).target) ∧
      Tendsto (fun n => ((Spring.init 0).iterate 1 1 n).velocity) atTop (nhds 0))) :=
  ⟨by norm_num, by norm_num,
   spring_update_stable_and_convergent (Spring.init 0) 1 1 (by norm_num) (by norm_num)⟩

/- ### One half-life step at rest (C7) -/

/-- A spring at rest updated over exactly one half-life multiplies the
remaining distance by `exp(−2·LN_2)·(1 + 2·LN_2)`. -/
lemma spring_update_at_rest_one_halflife (s : Spring) (h : ℝ)
    (hh : EPSILON ≤ h) (hv : s.velocity = 0) :
    (s.update h h).position - s.target =
      Real.exp (-(2 * LN_2)) * ((1 + 2 * LN_2) * (s.position - s.target)) := by
  have hpos : 0 < h := lt_of_lt_of_le EPSILON_pos hh
  have hne : h ≠ 0 := ne_of_gt hpos
  rw [Spring.update, if_neg (not_le.mpr hpos)]
  simp only [hv, max_eq_left hh]
  have harg : -(4 * LN_2 / h / 2) * h = -(2 * LN_2) := by
    field_simp
    ring
  rw [harg, add_sub_cancel_right]
  field_simp
  ring

/-- The code constant satisfies `exp(2·LN_2) < 2 + 4·LN_2`; hence one
half-life step at rest leaves strictly more than half the distance. -/
lemma exp_two_LN_2_lt : Real.exp (2 * LN_2) < 2 + 4 * LN_2 := by
  have h1 : (2 * LN_2 : ℝ) ≤ 1.5 := by norm_num [LN_2]
  have h2 : Real.exp (2 * LN_2) ≤ Real.exp 1.5 := Real.exp_le_exp.mpr h1
  have h3 : Real.exp 1.5 * Real.exp 1.5 = Real.exp 3 := by
    rw [← Real.exp_add]
    norm_num
  have h4 : Real.exp 3 = Real.exp 1 * Real.exp 1 * Real.exp 1 := by
    rw [← Real.exp_add, ← Real.exp_add]
    norm_num
  have h5 : Real.exp 1 < 2.7182818286 := Real.exp_one_lt_d9
  have hp : (0 : ℝ) < Real.exp 1 := Real.exp_pos 1
  have h6 : Real.exp 3 < 2.7182818286 ^ 3 := by
    rw [h4]
    nlinarith
  have h7 : Real.exp 1.5 * Real.exp 1.5 < (2 + 4 * LN_2) ^ 2 := by
    rw [h3]
    refine lt_of_lt_of_le h6 ?_
    norm_num [LN_2]
  have h8 : (0 : ℝ) < Real.exp 1.5 := Real.exp_pos _
  have hS : (0 : ℝ) < 2 + 4 * LN_2 := by norm_num [LN_2]
  nlinarith

/-- **C7 (counterexample).** A spring at rest at distance 1 from its target
(position 1, target 0, velocity 0), updated with half-life 1 over `dt = 1`,
does **not** end up at distance exactly `1/2`: the code's closed form leaves
`exp(−2·LN_2)·(1+2·LN_2) ≈ 0.5966` of the distance. -/
theorem spring_halflife_step_not_half :
    |(Spring.update ⟨1, 0, 0⟩ 1 1).position - (0 : ℝ)| ≠ 1 / 2 := by
  have h := spring_update_at_rest_one_halflife ⟨1, 0, 0⟩ 1 (by norm_num [EPSILON]) rfl
  simp only at h
  have hval : (Spring.update ⟨1, 0, 0⟩ 1 1).position - (0 : ℝ) =
      Real.exp (-(2 * LN_2)) * (1 + 2 * LN_2) := by
    rw [h]
    ring
  have hEpos : (0 : ℝ) < Real.exp (2 * LN_2) := Real.exp_pos _
  have hgt : 1 / 2 < Real.exp (-(2 * LN_2)) * (1 + 2 * LN_2) := by
    rw [Real.exp_neg, inv_mul_eq_div, lt_div_iff₀ hEpos]
    nlinarith [exp_two_LN_2_lt]
  rw [hval, abs_of_pos (lt_trans (by norm_num) hgt)]
  exact ne_of_gt hgt

/-- **C7 (amended).** For a spring at rest (velocity 0) and a half-life
`h ≥ ε`, a single update over `dt = h` multiplies the remaining distance by
the constant `exp(−2·LN_2)·(1+2·LN_2) ≈ 0.5966` — close to, but not exactly,
one half. -/
theorem spring_halflife_step_factor (s : Spring) (h : ℝ)
    (hh : EPSILON ≤ h) (hv : s.velocity = 0) :
    |(s.update h h).position - s.target| =
      Real.exp (-(2 * LN_2)) * (1 + 2 * LN_2) * |s.position - s.target| := by
  rw [spring_update_at_rest_one_halflife s h hh hv, abs_mul, abs_mul,
    abs_of_pos (Real.exp_pos _), abs_of_pos (by nlinarith [LN_2_pos] : (0:ℝ) < 1 + 2 * LN_2),
    mul_assoc]

/-- Witness for the amended C7: position 3, target 1, velocity 0,
half-life 1. -/
theorem spring_halflife_step_factor_witness :
    EPSILON ≤ 1 ∧ (Spring.mk 3 0 1).velocity = 0 ∧
    |(Spring.update ⟨3, 0, 1⟩ 1 1).position - (1 : ℝ)| =
      Real.exp (-(2 * LN_2)) * (1 + 2 * LN_2) * |(3 : ℝ) - 1| := by
  refine ⟨by norm_num [EPSILON], rfl, ?_⟩
  have := spring_halflife_step_factor ⟨3, 0, 1⟩ 1 (by norm_num [EPSILON]) rfl
  simpa using this

/- ### The computeViewportAt replay loop (springMath.ts lines 50–112) -/

/-- The loop state of `computeViewportAt`: the three springs (`cx`, `cy`,
`zoomSpring`), the current half-lives (`panHL`, `zoomHL`) and the `prevMs`
cursor. -/
structure LoopState where
  cx : Spring
  cy : Spring
  zoomSpring : Spring
  panHL : ℝ
  zoomHL : ℝ
  prevMs : ℝ

/-- The state at the top of `computeViewportAt`: springs at
`(screen_w/2, screen_h/2, 1.0)`, default half-lives `panHL = 0.22`,
`zoomHL = 0.25`, `prevMs = 0`. -/
noncomputable def initLoopState (screenWidth screenHeight : ℝ) : LoopState :=
  { cx := Spring.init (screenWidth / 2)
    cy := Spring.init (screenHeight / 2)
    zoomSpring := Spring.init 1.0
    panHL := 0.22
    zoomHL := 0.25
    prevMs := 0 }

/-- The recurring advance step of the loop:
`const dt = (toMs - prevMs) / 1000; if (dt > 0) { update all three springs }`.
`prevMs` is not modified here (the loop body assigns it separately). -/
noncomputable def advanceSprings (st : LoopState) (toMs : ℝ) : LoopState :=
  let dt := (toMs - st.prevMs) / 1000
  if 0 < dt then
    { st with cx := st.cx.update st.panHL dt
              cy := st.cy.update st.panHL dt
              zoomSpring := st.zoomSpring.update st.zoomHL dt }
  else st

/-- The loop body of `computeViewportAt` for one keyframe whose time has been
reached: advance the springs to `kf.time_ms`, set the three targets, adopt the
spring-hint half-lives if present — otherwise auto-detect the zoom direction
(`zoom_level` vs current zoom position) — and set `prevMs`. -/
noncomputable def applyKeyframe (st : LoopState) (kf : ZoomKeyframe) : LoopState :=
  let st' := advanceSprings st kf.time_ms
  let cx' := { st'.cx with target := kf.target_x }
  let cy' := { st'.cy with target := kf.target_y }
  let zoomSpring' := { st'.zoomSpring with target := kf.zoom_level }
  match kf.spring_hint with
  | some hint =>
      { cx := cx', cy := cy', zoomSpring := zoomSpring',
        panHL := hint.pan_half_life, zoomHL := hint.zoom_half_life,
        prevMs := kf.time_ms }
  | none =>
      { cx := cx', cy := cy', zoomSpring := zoomSpring',
        panHL := 0.22,
        zoomHL :=
          if zoomSpring'.position < kf.zoom_level then 0.25
          else if kf.zoom_level < zoomSpring'.position then 0.35
          else st'.zoomHL,
        prevMs := kf.time_ms }

/-- The keyframe loop of `computeViewportAt`: stop (advance to `timeMs` and
return) at the first keyframe with `kf.time_ms > timeMs`, otherwise apply the
keyframe and continue; past the last keyframe, advance to `timeMs`. -/
noncomputable def computeViewportAtGo (timeMs screenWidth screenHeight : ℝ) :
    LoopState → List ZoomKeyframe → ViewportRect
  | st, [] =>
    let stf := advanceSprings st timeMs
    makeViewport stf.cx stf.cy stf.zoomSpring screenWidth screenHeight
  | st, kf :: rest =>
    if timeMs < kf.time_ms then
      let stf := advanceSprings st timeMs
      makeViewport stf.cx stf.cy stf.zoomSpring screenWidth screenHeight
    else computeViewportAtGo timeMs screenWidth screenHeight (applyKeyframe st kf) rest

/-- `computeViewportAt` from springMath.ts. -/
noncomputable def computeViewportAt (keyframes : List ZoomKeyframe)
    (timeMs screenWidth screenHeight : ℝ) : ViewportRect :=
  computeViewportAtGo timeMs screenWidth screenHeight
    (initLoopState screenWidth screenHeight) keyframes

/-- Reference replay: apply a given list of keyframes in order, each exactly
once, then advance to `timeMs` and read off the viewport. -/
noncomputable def replayViewport (kfs : List ZoomKeyframe)
    (timeMs screenWidth screenHeight : ℝ) (st : LoopState) : ViewportRect :=
  let stf := advanceSprings (List.foldl applyKeyframe st kfs) timeMs
  makeViewport stf.cx stf.cy stf.zoomSpring screenWidth screenHeight

/-- The keyframes with `time_ms ≤ timeMs` — the ones the loop may consume. -/
noncomputable def pastKeyframes (kfs : List ZoomKeyframe) (timeMs : ℝ) :
    List ZoomKeyframe :=
  kfs.filter fun kf => decide (kf.time_ms ≤ timeMs)

/-- The millisecond gaps the loop divides by 1000 and feeds to
`Spring.update` as `dt`: from `prevMs = 0` through the keyframe times to the
query time. -/
def dtGapsMs (kfs : List ZoomKeyframe) (timeMs : ℝ) : List ℝ :=
  List.zipWith (fun a b => a - b) (kfs.map ZoomKeyframe.time_ms ++ [timeMs])
    (0 :: kfs.map ZoomKeyframe.time_ms)

/-- Time order on keyframes (the comparator `a.time_ms - b.time_ms`). -/
def kfLE (a b : ZoomKeyframe) : Prop := a.time_ms ≤ b.time_ms

noncomputable instance : DecidableRel kfLE := fun a b =>
  Real.decidableLE a.time_ms b.time_ms

instance : IsTotal ZoomKeyframe kfLE := ⟨fun a b => le_total a.time_ms b.time_ms⟩

instance : IsTrans ZoomKeyframe kfLE := ⟨fun _ _ _ hab hbc => le_trans hab hbc⟩

/- ### zoomSegments.ts -/

/-- `ZoomSegment` from zoomSegments.ts. -/
structure ZoomSegment where
  id : ℤ
  startMs : ℝ
  endMs : ℝ
  zoomLevel : ℝ
  centerX : ℝ
  centerY : ℝ

/-- Start-time order on segments (the comparator `a.startMs - b.startMs`). -/
def segLE (a b : ZoomSegment) : Prop := a.startMs ≤ b.startMs

noncomputable instance : DecidableRel segLE := fun a b =>
  Real.decidableLE a.startMs b.startMs

instance : IsTotal ZoomSegment segLE := ⟨fun a b => le_total a.startMs b.startMs⟩

instance : IsTrans ZoomSegment segLE := ⟨fun _ _ _ hab hbc => le_trans hab hbc⟩

/-- `segmentsToKeyframes` from zoomSegments.ts: the `t = 0` overview keyframe,
then a SpringIn/SpringOut pair per segment (segments visited in `startMs`
order), finally sorted by `time_ms`.  JS's stable `Array.prototype.sort` is
modelled by the stable `List.insertionSort`. -/
noncomputable def segmentsToKeyframes (segments : List ZoomSegment)
    (screenWidth screenHeight : ℝ) : List ZoomKeyframe :=
  let sorted := List.insertionSort segLE segments
  let kfs : List ZoomKeyframe :=
    { time_ms := 0, target_x := screenWidth / 2, target_y := screenHeight / 2,
      zoom_level := 1.0, transition := TransitionType.Smooth, spring_hint := none } ::
      sorted.flatMap fun seg =>
        [{ time_ms := seg.startMs, target_x := seg.centerX, target_y := seg.centerY,
           zoom_level := seg.zoomLevel, transition := TransitionType.SpringIn,
           spring_hint := none },
         { time_ms := seg.endMs, target_x := screenWidth / 2,
           target_y := screenHeight / 2, zoom_level := 1.0,
           transition := TransitionType.SpringOut, spring_hint := none }]
  List.insertionSort kfLE kfs

/- ### Helper lemmas about Spring.update -/

/-- `dt ≤ 0` makes `Spring.update` a no-op. -/
lemma Spring.update_nonpos (s : Spring) (h dt : ℝ) (hdt : dt ≤ 0) :
    s.update h dt = s := by
  rw [Spring.update, if_pos hdt]

/-- The explicit record produced by `Spring.update` when `0 < dt`. -/
lemma Spring.update_pos_eq (s : Spring) (h dt : ℝ) (hdt : 0 < dt) :
    s.update h dt =
      ⟨Real.exp (-(4 * LN_2 / max h EPSILON / 2) * dt) *
          ((s.position - s.target) +
            (s.velocity + (s.position - s.target) * (4 * LN_2 / max h EPSILON / 2)) * dt) +
          s.target,
        Real.exp (-(4 * LN_2 / max h EPSILON / 2) * dt) *
          (s.velocity -
            (s.velocity + (s.position - s.target) * (4 * LN_2 / max h EPSILON / 2)) *
              (4 * LN_2 / max h EPSILON / 2) * dt),
        s.target⟩ := by
  rw [Spring.update, if_neg (not_le.mpr hdt)]

/-- A settled spring (position = target, velocity = 0) is a fixed point of
`Spring.update`. -/
lemma Spring.update_settled (p h dt : ℝ) :
    Spring.update ⟨p, 0, p⟩ h dt = ⟨p, 0, p⟩ := by
  rcases le_or_lt dt 0 with hle | hgt
  · exact Spring.update_nonpos _ _ _ hle
  · rw [Spring.update_pos_eq _ _ _ hgt]
    simp only [Spring.mk.injEq]
    refine ⟨?_, ?_, trivial⟩ <;> ring

/- ### Sorted keyframe lists -/

/-- In the insertion sort of a list of keyframes with non-negative times, one
of which has time `0`, the first time is `0`. -/
lemma head_time_zero_of_insertionSort (kfs : List ZoomKeyframe)
    (hnn : ∀ kf ∈ kfs, 0 ≤ kf.time_ms) (h0 : ∃ kf ∈ kfs, kf.time_ms = 0) :
    ((List.insertionSort kfLE kfs).map ZoomKeyframe.time_ms).head? = some 0 := by
  obtain ⟨kf0, hkf0mem, hkf0t⟩ := h0
  cases hL : List.insertionSort kfLE kfs with
  | nil =>
    exfalso
    have : kf0 ∈ List.insertionSort kfLE kfs := (List.mem_insertionSort kfLE).mpr hkf0mem
    rw [hL] at this
    exact (List.not_mem_nil kf0) this
  | cons a l =>
    have hamem : a ∈ kfs := by
      have : a ∈ List.insertionSort kfLE kfs := by
        rw [hL]
        exact List.mem_cons_self a l
      exact (List.mem_insertionSort kfLE).mp this
    have h0le : 0 ≤ a.time_ms := hnn a hamem
    have hle0 : a.time_ms ≤ 0 := by
      have hov : kf0 ∈ a :: l := by
        rw [← hL]
        exact (List.mem_insertionSort kfLE).mpr hkf0mem
      rcases List.mem_cons.mp hov with h | h
      · rw [← h, hkf0t]
      · have hsorted := List.sorted_insertionSort kfLE kfs
        rw [hL] at hsorted
        have := List.rel_of_sorted_cons hsorted kf0 h
        rw [kfLE, hkf0t] at this
        exact this
    simp [le_antisymm hle0 h0le]

/-- **C3.** For every segment list with non-negative times, the keyframe list
emitted by `segmentsToKeyframes` has non-decreasing `time_ms` values, and its
first keyframe is at `t = 0` (in particular whenever the segment list is
non-empty). -/
theorem segmentsToKeyframes_sorted_first_zero (segments : List ZoomSegment)
    (screenWidth screenHeight : ℝ)
    (hnn : ∀ seg ∈ segments, 0 ≤ seg.startMs ∧ 0 ≤ seg.endMs) :
    List.Sorted kfLE (segmentsToKeyframes segments screenWidth screenHeight) ∧
    ((segmentsToKeyframes segments screenWidth screenHeight).map
      ZoomKeyframe.time_ms).head? = some 0 := by
  simp only [segmentsToKeyframes]
  constructor
  · exact List.sorted_insertionSort kfLE _
  · apply head_time_zero_of_insertionSort
    · intro kf hkf
      rcases List.mem_cons.mp hkf with h | h
      · rw [h]
      · rcases List.mem_flatMap.mp h with ⟨seg, hseg, hkf2⟩
        have hseg' : seg ∈ segments :=
          (List.perm_insertionSort segLE segments).subset hseg
        rcases hnn seg hseg' with ⟨h1, h2⟩
        rcases List.mem_cons.mp hkf2 with h3 | h3
        · rw [h3]
          exact h1
        · rw [List.mem_singleton.mp h3]
          exact h2
    · refine ⟨_, List.mem_cons_self _ _, ?_⟩
      rfl

/-- Witness for C3: a single segment `[500 ms, 2500 ms]` on a 1920×1080
screen. -/
theorem segmentsToKeyframes_sorted_first_zero_witness :
    (∀ seg ∈ [(⟨1, 500, 2500, 2, 300, 300⟩ : ZoomSegment)],
      0 ≤ seg.startMs ∧ 0 ≤ seg.endMs) ∧
    (List.Sorted kfLE (segmentsToKeyframes [⟨1, 500, 2500, 2, 300, 300⟩] 1920 1080) ∧
     ((segmentsToKeyframes [⟨1, 500, 2500, 2, 300, 300⟩] 1920 1080).map
       ZoomKeyframe.time_ms).head? = some 0) :=
  ⟨by
    intro seg hseg
    rw [List.mem_singleton] at hseg
    subst hseg
    constructor <;> norm_num,
   segmentsToKeyframes_sorted_first_zero [⟨1, 500, 2500, 2, 300, 300⟩] 1920 1080
    (by
      intro seg hseg
      rw [List.mem_singleton] at hseg
      subst hseg
      constructor <;> norm_num)⟩

/-- The viewport of a fully settled state is the identity viewport. -/
lemma makeViewport_identity (screenWidth screenHeight : ℝ) :
    makeViewport ⟨screenWidth / 2, 0, screenWidth / 2⟩
      ⟨screenHeight / 2, 0, screenHeight / 2⟩ ⟨1, 0, 1⟩ screenWidth screenHeight =
      { x := 0, y := 0, width := screenWidth, height := screenHeight, zoom := 1 } := by
  simp only [makeViewport, ViewportRect.mk.injEq]
  norm_num

/-- **C6 (counterexample).** With an empty segment list, `segmentsToKeyframes`
does **not** emit an empty keyframe list: it always pushes the `t = 0`
overview keyframe. -/
theorem segmentsToKeyframes_empty_not_nil :
    segmentsToKeyframes ([] : List ZoomSegment) 1920 1080 ≠ ([] : List ZoomKeyframe) := by
  simp [segmentsToKeyframes, List.insertionSort, List.orderedInsert]

/-- **C6 (amended).** With an empty segment list, `segmentsToKeyframes` emits
exactly one keyframe — the `t = 0` overview (screen center, zoom 1.0,
Smooth) — and every frame at time `t ≥ 0` is rendered at the identity
viewport (zoom 1, full screen). -/
theorem segmentsToKeyframes_empty_identity (screenWidth screenHeight timeMs : ℝ)
    (ht : 0 ≤ timeMs) :
    segmentsToKeyframes [] screenWidth screenHeight =
      [{ time_ms := 0, target_x := screenWidth / 2, target_y := screenHeight / 2,
         zoom_level := 1, transition := TransitionType.Smooth, spring_hint := none }] ∧
    computeViewportAt (segmentsToKeyframes [] screenWidth screenHeight)
        timeMs screenWidth screenHeight =
      { x := 0, y := 0, width := screenWidth, height := screenHeight, zoom := 1 } := by
  have hlist : segmentsToKeyframes [] screenWidth screenHeight =
      [{ time_ms := 0, target_x := screenWidth / 2, target_y := screenHeight / 2,
         zoom_level := 1, transition := TransitionType.Smooth, spring_hint := none }] := by
    simp [segmentsToKeyframes, List.insertionSort, List.orderedInsert]
    norm_num
  refine ⟨hlist, ?_⟩
  rw [hlist, computeViewportAt]
  have happly : applyKeyframe (initLoopState screenWidth screenHeight)
      { time_ms := 0, target_x := screenWidth / 2, target_y := screenHeight / 2,
        zoom_level := 1, transition := TransitionType.Smooth, spring_hint := none } =
      ⟨⟨screenWidth / 2, 0, screenWidth / 2⟩, ⟨screenHeight / 2, 0, screenHeight / 2⟩,
        ⟨1, 0, 1⟩, 0.22, 0.25, 0⟩ := by
    simp only [applyKeyframe, advanceSprings, initLoopState, Spring.init]
    norm_num
  have hstep : computeViewportAtGo timeMs screenWidth screenHeight
      (initLoopState screenWidth screenHeight)
      [{ time_ms := 0, target_x := screenWidth / 2, target_y := screenHeight / 2,
         zoom_level := 1, transition := TransitionType.Smooth, spring_hint := none }] =
      computeViewportAtGo timeMs screenWidth screenHeight
        (applyKeyframe (initLoopState screenWidth screenHeight)
          { time_ms := 0, target_x := screenWidth / 2, target_y := screenHeight / 2,
            zoom_level := 1, transition := TransitionType.Smooth, spring_hint := none })
        [] := by
    rw [computeViewportAtGo]
    exact if_neg (not_lt.mpr ht)
  rw [hstep, happly]
  have hadv : advanceSprings
      ⟨⟨screenWidth / 2, 0, screenWidth / 2⟩, ⟨screenHeight / 2, 0, screenHeight / 2⟩,
        ⟨1, 0, 1⟩, 0.22, 0.25, 0⟩ timeMs =
      ⟨⟨screenWidth / 2, 0, screenWidth / 2⟩, ⟨screenHeight / 2, 0, screenHeight / 2⟩,
        ⟨1, 0, 1⟩, 0.22, 0.25, 0⟩ := by
    simp only [advanceSprings]
    rcases le_or_lt ((timeMs - 0) / 1000) 0 with h2 | h2
    · rw [if_neg (not_lt.mpr h2)]
    · rw [if_pos h2]
      simp only [Spring.update_settled]
  rw [computeViewportAtGo]
  simp only [hadv]
  exact makeViewport_identity screenWidth screenHeight

/-- Witness for the amended C6 on a 1920×1080 screen at `t = 400`. -/
theorem segmentsToKeyframes_empty_identity_witness :
    (0 : ℝ) ≤ 400 ∧
    (segmentsToKeyframes [] 1920 1080 =
      [{ time_ms := 0, target_x := 1920 / 2, target_y := 1080 / 2,
         zoom_level := 1, transition := TransitionType.Smooth, spring_hint := none }] ∧
     computeViewportAt (segmentsToKeyframes [] 1920 1080) 400 1920 1080 =
      { x := 0, y := 0, width := 1920, height := 1080, zoom := 1 }) :=
  ⟨by norm_num, segmentsToKeyframes_empty_identity 1920 1080 400 (by norm_num)⟩

/- ### The replay loop touches exactly the keyframes with time_ms ≤ t -/

/-- The loop equals the reference replay of the `takeWhile (time_ms ≤ t)`
prefix, from any start state. -/
lemma computeViewportAtGo_eq_replay (timeMs screenWidth screenHeight : ℝ)
    (kfs : List ZoomKeyframe) (st : LoopState) :
    computeViewportAtGo timeMs screenWidth screenHeight st kfs =
      replayViewport (kfs.takeWhile fun kf => decide (kf.time_ms ≤ timeMs))
        timeMs screenWidth screenHeight st := by
  induction kfs generalizing st with
  | nil => rfl
  | cons kf rest ih =>
    rcases le_or_lt kf.time_ms timeMs with hle | hgt
    · rw [computeViewportAtGo, if_neg (not_lt.mpr hle), ih]
      rw [List.takeWhile_cons, if_pos (decide_eq_true hle)]
      rfl
    · rw [computeViewportAtGo, if_pos hgt]
      rw [List.takeWhile_cons, if_neg]
      · rfl
      · simp [not_le.mpr hgt]

/-- For a time-sorted keyframe list, the `takeWhile (time_ms ≤ t)` prefix is
exactly the set of keyframes with `time_ms ≤ t`. -/
lemma sorted_takeWhile_eq_filter (kfs : List ZoomKeyframe) (timeMs : ℝ)
    (hs : List.Sorted kfLE kfs) :
    (kfs.takeWhile fun kf => decide (kf.time_ms ≤ timeMs)) =
      pastKeyframes kfs timeMs := by
  induction kfs with
  | nil => rfl
  | cons a l ih =>
    have ha := List.rel_of_sorted_cons hs
    have hl : List.Sorted kfLE l := hs.of_cons
    rcases le_or_lt a.time_ms timeMs with hle | hgt
    · rw [List.takeWhile_cons, if_pos (decide_eq_true hle), pastKeyframes,
        List.filter_cons, if_pos (decide_eq_true hle), ih hl]
      rfl
    · rw [List.takeWhile_cons, if_neg, pastKeyframes, List.filter_cons, if_neg]
      · symm
        rw [List.filter_eq_nil_iff]
        intro kf hkf
        have : a.time_ms ≤ kf.time_ms := ha kf hkf
        simp only [decide_eq_true_eq]
        linarith
      · simp [not_le.mpr hgt]
      · simp [not_le.mpr hgt]

/-- The millisecond gaps walked by the loop telescope to the query time. -/
lemma dtGapsMs_sum (kfs : List ZoomKeyframe) (timeMs : ℝ) :
    (dtGapsMs kfs timeMs).sum = timeMs := by
  suffices h : ∀ (l : List ℝ) (p : ℝ),
      (List.zipWith (fun a b => a - b) (l ++ [timeMs]) (p :: l)).sum = timeMs - p by
    have := h (kfs.map ZoomKeyframe.time_ms) 0
    simpa [dtGapsMs] using this
  intro l
  induction l with
  | nil =>
    intro p
    simp
  | cons x xs ih =>
    intro p
    simp only [List.cons_append, List.zipWith_cons_cons, List.sum_cons, ih x]
    ring

/-- Under sortedness and non-negative times, every gap the loop walks is
non-negative. -/
lemma dtGapsMs_nonneg (kfs : List ZoomKeyframe) (timeMs : ℝ)
    (hs : List.Sorted kfLE kfs)
    (hnn : ∀ kf ∈ kfs, 0 ≤ kf.time_ms)
    (hle : ∀ kf ∈ kfs, kf.time_ms ≤ timeMs) (ht : 0 ≤ timeMs) :
    ∀ g ∈ dtGapsMs kfs timeMs, 0 ≤ g := by
  suffices h : ∀ (l : List ZoomKeyframe) (p : ℝ), List.Sorted kfLE l →
      (∀ kf ∈ l, p ≤ kf.time_ms) → (∀ kf ∈ l, kf.time_ms ≤ timeMs) → p ≤ timeMs →
      ∀ g ∈ List.zipWith (fun a b => a - b)
        (l.map ZoomKeyframe.time_ms ++ [timeMs]) (p :: l.map ZoomKeyframe.time_ms),
        0 ≤ g by
    exact h kfs 0 hs hnn hle ht
  intro l
  induction l with
  | nil =>
    intro p _ _ _ hpt g hg
    simp only [List.map_nil, List.nil_append, List.zipWith_cons_cons,
      List.zipWith_nil_right, List.mem_singleton] at hg
    rw [hg]
    linarith
  | cons a as ih =>
    intro p hsort hp hletime hpt g hg
    simp only [List.map_cons, List.cons_append, List.zipWith_cons_cons,
      List.mem_cons] at hg
    rcases hg with hg | hg
    · have := hp a (List.mem_cons_self a as)
      rw [hg]
      linarith
    · refine ih a.time_ms hsort.of_cons ?_ ?_ ?_ g hg
      · intro kf hkf
        exact List.rel_of_sorted_cons hsort kf hkf
      · intro kf hkf
        exact hletime kf (List.mem_cons_of_mem a hkf)
      · exact hletime a (List.mem_cons_self a as)

/-- **C1.** For every time-sorted keyframe list with non-negative times and
every query time `t ≥ 0`, `computeViewportAt` starts from the three springs
initialized to `(screen_w/2, screen_h/2, 1.0)` and returns the viewport
obtained by applying exactly the keyframes with `time_ms ≤ t` — each exactly
once, in list order (a fold over the filtered sublist) — with the millisecond
gaps fed to the spring updates all non-negative and summing to `t`; no
keyframe with `time_ms > t` is touched. -/
theorem computeViewportAt_replays_past_keyframes (keyframes : List ZoomKeyframe)
    (timeMs screenWidth screenHeight : ℝ)
    (hsorted : List.Sorted kfLE keyframes)
    (hnn : ∀ kf ∈ keyframes, 0 ≤ kf.time_ms) (ht : 0 ≤ timeMs) :
    (initLoopState screenWidth screenHeight).cx = Spring.init (screenWidth / 2) ∧
    (initLoopState screenWidth screenHeight).cy = Spring.init (screenHeight / 2) ∧
    (initLoopState screenWidth screenHeight).zoomSpring = Spring.init 1 ∧
    computeViewportAt keyframes timeMs screenWidth screenHeight =
      replayViewport (pastKeyframes keyframes timeMs) timeMs screenWidth screenHeight
        (initLoopState screenWidth screenHeight) ∧
    (∀ kf ∈ pastKeyframes keyframes timeMs, kf.time_ms ≤ timeMs) ∧
    (pastKeyframes keyframes timeMs).Sublist keyframes ∧
    (dtGapsMs (pastKeyframes keyframes timeMs) timeMs).sum = timeMs ∧
    (∀ g ∈ dtGapsMs (pastKeyframes keyframes timeMs) timeMs, 0 ≤ g) := by
  refine ⟨rfl, rfl, by norm_num [initLoopState, Spring.init], ?_, ?_, ?_, ?_, ?_⟩
  · rw [computeViewportAt, computeViewportAtGo_eq_replay,
      sorted_takeWhile_eq_filter keyframes timeMs hsorted]
  · intro kf hkf
    have := List.of_mem_filter hkf
    simpa using this
  · exact List.filter_sublist keyframes
  · exact dtGapsMs_sum _ _
  · refine dtGapsMs_nonneg _ _ ?_ ?_ ?_ ht
    · exact hsorted.sublist (List.filter_sublist keyframes)
    · intro kf hkf
      exact hnn kf (List.mem_of_mem_filter hkf)
    · intro kf hkf
      have := List.of_mem_filter hkf
      simpa using this

/-- Witness for C1: one keyframe at `t = 0`, query time 1000 ms, 1920×1080
screen. -/
theorem computeViewportAt_replays_past_keyframes_witness :
    List.Sorted kfLE [⟨0, 960, 540, 2, TransitionType.SpringIn, none⟩] ∧
    (∀ kf ∈ [(⟨0, 960, 540, 2, TransitionType.SpringIn, none⟩ : ZoomKeyframe)],
      0 ≤ kf.time_ms) ∧
    (0 : ℝ) ≤ 1000 ∧
    ((initLoopState 1920 1080).cx = Spring.init (1920 / 2) ∧
     (initLoopState 1920 1080).cy = Spring.init (1080 / 2) ∧
     (initLoopState 1920 1080).zoomSpring = Spring.init 1 ∧
     computeViewportAt [⟨0, 960, 540, 2, TransitionType.SpringIn, none⟩] 1000 1920 1080 =
       replayViewport
         (pastKeyframes [⟨0, 960, 540, 2, TransitionType.SpringIn, none⟩] 1000)
         1000 1920 1080 (initLoopState 1920 1080) ∧
     (∀ kf ∈ pastKeyframes [⟨0, 960, 540, 2, TransitionType.SpringIn, none⟩] 1000,
       kf.time_ms ≤ 1000) ∧
     (pastKeyframes [⟨0, 960, 540, 2, TransitionType.SpringIn, none⟩] 1000).Sublist
       [⟨0, 960, 540, 2, TransitionType.SpringIn, none⟩] ∧
     (dtGapsMs (pastKeyframes [⟨0, 960, 540, 2, TransitionType.SpringIn, none⟩] 1000)
       1000).sum = 1000 ∧
     (∀ g ∈ dtGapsMs (pastKeyframes [⟨0, 960, 540, 2, TransitionType.SpringIn, none⟩]
       1000) 1000, 0 ≤ g)) :=
  ⟨List.sorted_singleton _,
   by
    intro kf hkf
    rw [List.mem_singleton] at hkf
    subst hkf
    norm_num,
   by norm_num,
   computeViewportAt_replays_past_keyframes
     [⟨0, 960, 540, 2, TransitionType.SpringIn, none⟩] 1000 1920 1080
     (List.sorted_singleton _)
     (by
       intro kf hkf
       rw [List.mem_singleton] at hkf
       subst hkf
       norm_num)
     (by norm_num)⟩

/-- **C10.** The viewport returned by `computeViewportAt` depends only on the
keyframes with `time_ms ≤ t`: two sorted keyframe lists that agree on that
subset (and the same `t`, `screen_w`, `screen_h`) yield equal viewports,
regardless of keyframes strictly in the future. -/
theorem computeViewportAt_ignores_future_keyframes (kfs₁ kfs₂ : List ZoomKeyframe)
    (timeMs screenWidth screenHeight : ℝ)
    (h₁ : List.Sorted kfLE kfs₁) (h₂ : List.Sorted kfLE kfs₂)
    (hagree : pastKeyframes kfs₁ timeMs = pastKeyframes kfs₂ timeMs) :
    computeViewportAt kfs₁ timeMs screenWidth screenHeight =
      computeViewportAt kfs₂ timeMs screenWidth screenHeight := by
  rw [computeViewportAt, computeViewportAt, computeViewportAtGo_eq_replay,
    computeViewportAtGo_eq_replay, sorted_takeWhile_eq_filter kfs₁ timeMs h₁,
    sorted_takeWhile_eq_filter kfs₂ timeMs h₂, hagree]

/-- Witness for C10: `[kf₀]` versus `[kf₀, kf₂₀₀₀]` at query time 1000 ms —
the future keyframe at 2000 ms does not change the result. -/
theorem computeViewportAt_ignores_future_keyframes_witness :
    List.Sorted kfLE [⟨0, 960, 540, 2, TransitionType.SpringIn, none⟩] ∧
    List.Sorted kfLE [⟨0, 960, 540, 2, TransitionType.SpringIn, none⟩,
      ⟨2000, 100, 100, 3, TransitionType.SpringOut, none⟩] ∧
    pastKeyframes [⟨0, 960, 540, 2, TransitionType.SpringIn, none⟩] 1000 =
      pastKeyframes [⟨0, 960, 540, 2, TransitionType.SpringIn, none⟩,
        ⟨2000, 100, 100, 3, TransitionType.SpringOut, none⟩] 1000 ∧
    computeViewportAt [⟨0, 960, 540, 2, TransitionType.SpringIn, none⟩] 1000 1920 1080 =
      computeViewportAt [⟨0, 960, 540, 2, TransitionType.SpringIn, none⟩,
        ⟨2000, 100, 100, 3, TransitionType.SpringOut, none⟩] 1000 1920 1080 := by
  have hs1 : List.Sorted kfLE [(⟨0, 960, 540, 2, TransitionType.SpringIn, none⟩ :
      ZoomKeyframe)] := List.sorted_singleton _
  have hs2 : List.Sorted kfLE [(⟨0, 960, 540, 2, TransitionType.SpringIn, none⟩ :
      ZoomKeyframe), ⟨2000, 100, 100, 3, TransitionType.SpringOut, none⟩] := by
    rw [List.sorted_cons]
    refine ⟨?_, List.sorted_singleton _⟩
    intro b hb
    rw [List.mem_singleton] at hb
    subst hb
    rw [kfLE]
    norm_num
  have hagree : pastKeyframes [(⟨0, 960, 540, 2, TransitionType.SpringIn, none⟩ :
      ZoomKeyframe)] 1000 =
      pastKeyframes [(⟨0, 960, 540, 2, TransitionType.SpringIn, none⟩ : ZoomKeyframe),
        ⟨2000, 100, 100, 3, TransitionType.SpringOut, none⟩] 1000 := by
    rw [pastKeyframes, pastKeyframes, List.filter_cons, List.filter_cons,
      List.filter_cons, if_pos (decide_eq_true (by norm_num : (0:ℝ) ≤ 1000)),
      if_pos (decide_eq_true (by norm_num : (0:ℝ) ≤ 1000)), if_neg, List.filter_nil]
    simp only [decide_eq_true_eq]
    norm_num
  exact ⟨hs1, hs2, hagree,
    computeViewportAt_ignores_future_keyframes _ _ 1000 1920 1080 hs1 hs2 hagree⟩

/- ### C9: half-life selection at a keyframe without spring_hint -/

/-- Following the spec's words (§4.5): on a crossing without a `spring_hint`,
"if transition is SpringOut versus SpringIn, select the appropriate half-life
table entry" — SpringIn takes the zoom-in entry 0.25, SpringOut the zoom-out
entry 0.35 (Smooth is not covered by the sentence and keeps the current
value).  This is the spec-side counterpart of `applyKeyframe` for the
refinement comparison. -/
noncomputable def applyKeyframeSpecTransition (st : LoopState) (kf : ZoomKeyframe) :
    LoopState :=
  let st' := advanceSprings st kf.time_ms
  let cx' := { st'.cx with target := kf.target_x }
  let cy' := { st'.cy with target := kf.target_y }
  let zoomSpring' := { st'.zoomSpring with target := kf.zoom_level }
  match kf.spring_hint with
  | some hint =>
      { cx := cx', cy := cy', zoomSpring := zoomSpring',
        panHL := hint.pan_half_life, zoomHL := hint.zoom_half_life,
        prevMs := kf.time_ms }
  | none =>
      { cx := cx', cy := cy', zoomSpring := zoomSpring',
        panHL := 0.22,
        zoomHL :=
          match kf.transition with
          | TransitionType.SpringIn => 0.25
          | TransitionType.SpringOut => 0.35
          | TransitionType.Smooth => st'.zoomHL,
        prevMs := kf.time_ms }

/-- The `computeViewportAt` loop with the spec-side keyframe application. -/
noncomputable def computeViewportAtSpecTransitionGo
    (timeMs screenWidth screenHeight : ℝ) :
    LoopState → List ZoomKeyframe → ViewportRect
  | st, [] =>
    let stf := advanceSprings st timeMs
    makeViewport stf.cx stf.cy stf.zoomSpring screenWidth screenHeight
  | st, kf :: rest =>
    if timeMs < kf.time_ms then
      let stf := advanceSprings st timeMs
      makeViewport stf.cx stf.cy stf.zoomSpring screenWidth screenHeight
    else computeViewportAtSpecTransitionGo timeMs screenWidth screenHeight
      (applyKeyframeSpecTransition st kf) rest

/-- `computeViewportAt` as the spec's §4.5 sentence describes the half-life
selection. -/
noncomputable def computeViewportAtSpecTransition (keyframes : List ZoomKeyframe)
    (timeMs screenWidth screenHeight : ℝ) : ViewportRect :=
  computeViewportAtSpecTransitionGo timeMs screenWidth screenHeight
    (initLoopState screenWidth screenHeight) keyframes

/-- `x ↦ exp(−x)·(1+x)` is strictly decreasing on `[0, ∞)`. -/
lemma exp_neg_mul_one_add_lt {a b : ℝ} (ha : 0 ≤ a) (hab : a < b) :
    Real.exp (-b) * (1 + b) < Real.exp (-a) * (1 + a) := by
  have h1 : (1 + b) ≤ (1 + (b - a)) * (1 + a) := by nlinarith
  have h2 : 1 + (b - a) < Real.exp (b - a) := by
    have := Real.add_one_lt_exp (show b - a ≠ 0 from ne_of_gt (sub_pos.mpr hab))
    linarith
  have h1a : (0 : ℝ) < 1 + a := by linarith
  have h3 : (1 + b) < Real.exp (b - a) * (1 + a) := lt_of_le_of_lt h1 (by nlinarith)
  have h4 : (0 : ℝ) < Real.exp (-b) := Real.exp_pos _
  have h5 : Real.exp (b - a) * Real.exp (-b) = Real.exp (-a) := by
    rw [← Real.exp_add]
    congr 1
    ring
  calc Real.exp (-b) * (1 + b) < Real.exp (-b) * (Real.exp (b - a) * (1 + a)) :=
        (mul_lt_mul_left h4).mpr h3
    _ = Real.exp (-a) * (1 + a) := by
        rw [← mul_assoc, mul_comm (Real.exp (-b)) (Real.exp (b - a)), h5]

/-- `exp(−x)·(1+x) < 1` for `x > 0`. -/
lemma exp_neg_mul_one_add_lt_one {x : ℝ} (hx : 0 < x) :
    Real.exp (-x) * (1 + x) < 1 := by
  have := exp_neg_mul_one_add_lt (le_refl 0) hx
  simpa using this

lemma makeViewport_zoom (cx cy z : Spring) (w h : ℝ) :
    (makeViewport cx cy z w h).zoom = max z.position 1 := by
  simp only [makeViewport]
  norm_num

/-- Position of the zoom spring `⟨1, 0, 2⟩` after a 1-second update with a
given half-life `hl ≥ ε`. -/
lemma zoom_update_position (hl : ℝ) (hhl : EPSILON ≤ hl) :
    (Spring.update ⟨1, 0, 2⟩ hl 1).position =
      2 - Real.exp (-(4 * LN_2 / hl / 2)) * (1 + 4 * LN_2 / hl / 2) := by
  rw [Spring.update_pos_eq _ _ _ one_pos]
  simp only [max_eq_left hhl]
  rw [show -(4 * LN_2 / hl / 2) * 1 = -(4 * LN_2 / hl / 2) by ring]
  ring

/-- **C9 (counterexample).** A `SpringOut` keyframe whose target zoom (2.0)
exceeds the current zoom position (1.0): the code's direction fallback adopts
the zoom-**in** entry 0.25, while the claim's transition-kind selection
dictates the zoom-**out** entry 0.35 — and the resulting viewports at
`t = 1000 ms` differ. -/
theorem computeViewportAt_transition_vs_direction :
    computeViewportAt [⟨0, 960, 540, 2, TransitionType.SpringOut, none⟩]
        1000 1920 1080 ≠
      computeViewportAtSpecTransition
        [⟨0, 960, 540, 2, TransitionType.SpringOut, none⟩] 1000 1920 1080 := by
  have happly1 : applyKeyframe (initLoopState 1920 1080)
      ⟨0, 960, 540, 2, TransitionType.SpringOut, none⟩ =
      ⟨⟨960, 0, 960⟩, ⟨540, 0, 540⟩, ⟨1, 0, 2⟩, 0.22, 0.25, 0⟩ := by
    simp only [applyKeyframe, advanceSprings, initLoopState, Spring.init]
    norm_num
  have happly2 : applyKeyframeSpecTransition (initLoopState 1920 1080)
      ⟨0, 960, 540, 2, TransitionType.SpringOut, none⟩ =
      ⟨⟨960, 0, 960⟩, ⟨540, 0, 540⟩, ⟨1, 0, 2⟩, 0.22, 0.35, 0⟩ := by
    simp only [applyKeyframeSpecTransition, advanceSprings, initLoopState, Spring.init]
    norm_num
  have hone : ((1000 : ℝ) - 0) / 1000 = 1 := by norm_num
  have hadv1 : advanceSprings
      ⟨⟨960, 0, 960⟩, ⟨540, 0, 540⟩, ⟨1, 0, 2⟩, 0.22, 0.25, 0⟩ 1000 =
      ⟨⟨960, 0, 960⟩, ⟨540, 0, 540⟩, Spring.update ⟨1, 0, 2⟩ 0.25 1,
        0.22, 0.25, 0⟩ := by
    simp only [advanceSprings, hone]
    rw [if_pos (by norm_num : (0 : ℝ) < 1)]
    simp only [Spring.update_settled]
  have hadv2 : advanceSprings
      ⟨⟨960, 0, 960⟩, ⟨540, 0, 540⟩, ⟨1, 0, 2⟩, 0.22, 0.35, 0⟩ 1000 =
      ⟨⟨960, 0, 960⟩, ⟨540, 0, 540⟩, Spring.update ⟨1, 0, 2⟩ 0.35 1,
        0.22, 0.35, 0⟩ := by
    simp only [advanceSprings, hone]
    rw [if_pos (by norm_num : (0 : ℝ) < 1)]
    simp only [Spring.update_settled]
  have hrun1 : computeViewportAt [⟨0, 960, 540, 2, TransitionType.SpringOut, none⟩]
      1000 1920 1080 =
      makeViewport ⟨960, 0, 960⟩ ⟨540, 0, 540⟩ (Spring.update ⟨1, 0, 2⟩ 0.25 1)
        1920 1080 := by
    rw [computeViewportAt]
    simp only [computeViewportAtGo]
    rw [if_neg (by norm_num : ¬ (1000 : ℝ) < 0), happly1, hadv1]
  have hrun2 : computeViewportAtSpecTransition
      [⟨0, 960, 540, 2, TransitionType.SpringOut, none⟩] 1000 1920 1080 =
      makeViewport ⟨960, 0, 960⟩ ⟨540, 0, 540⟩ (Spring.update ⟨1, 0, 2⟩ 0.35 1)
        1920 1080 := by
    rw [computeViewportAtSpecTransition]
    simp only [computeViewportAtSpecTransitionGo]
    rw [if_neg (by norm_num : ¬ (1000 : ℝ) < 0), happly2, hadv2]
  have hz1 : (Spring.update ⟨1, 0, 2⟩ 0.25 1).position =
      2 - Real.exp (-(8 * LN_2)) * (1 + 8 * LN_2) := by
    rw [zoom_update_position 0.25 (by norm_num [EPSILON]),
      show (4 : ℝ) * LN_2 / 0.25 / 2 = 8 * LN_2 by ring]
  have hz2 : (Spring.update ⟨1, 0, 2⟩ 0.35 1).position =
      2 - Real.exp (-(40 / 7 * LN_2)) * (1 + 40 / 7 * LN_2) := by
    rw [zoom_update_position 0.35 (by norm_num [EPSILON]),
      show (4 : ℝ) * LN_2 / 0.35 / 2 = 40 / 7 * LN_2 by ring]
  have hpos : (0 : ℝ) < 40 / 7 * LN_2 := by nlinarith [LN_2_pos]
  have hlt : (40 / 7 : ℝ) * LN_2 < 8 * LN_2 := by nlinarith [LN_2_pos]
  have hf := exp_neg_mul_one_add_lt (le_of_lt hpos) hlt
  have hf40 := exp_neg_mul_one_add_lt_one hpos
  have hf8 : Real.exp (-(8 * LN_2)) * (1 + 8 * LN_2) < 1 := lt_trans hf hf40
  intro heq
  rw [hrun1, hrun2] at heq
  have hzoomeq := congrArg ViewportRect.zoom heq
  rw [makeViewport_zoom, makeViewport_zoom, hz1, hz2,
    max_eq_left (by linarith), max_eq_left (by linarith)] at hzoomeq
  have : Real.exp (-(8 * LN_2)) * (1 + 8 * LN_2) =
      Real.exp (-(40 / 7 * LN_2)) * (1 + 40 / 7 * LN_2) := by linarith
  linarith

/-- **C9 (amended).** At a keyframe without a `spring_hint`,
`computeViewportAt`'s loop selects the half-lives by the **zoom direction**
(target zoom versus current zoom-spring position: greater picks the zoom-in
entry 0.25, smaller the zoom-out entry 0.35, equal keeps the current value;
pan half-life is reset to 0.22) — not by the keyframe's transition kind,
which the application never reads. -/
theorem applyKeyframe_halflife_by_zoom_direction (st : LoopState) (kf : ZoomKeyframe)
    (hhint : kf.spring_hint = none) :
    (applyKeyframe st kf).panHL = 0.22 ∧
    (applyKeyframe st kf).zoomHL =
      (if (advanceSprings st kf.time_ms).zoomSpring.position < kf.zoom_level then 0.25
       else if kf.zoom_level < (advanceSprings st kf.time_ms).zoomSpring.position
         then 0.35
       else (advanceSprings st kf.time_ms).zoomHL) ∧
    ∀ tr : TransitionType,
      applyKeyframe st { kf with transition := tr } = applyKeyframe st kf := by
  refine ⟨?_, ?_, ?_⟩
  · simp only [applyKeyframe, hhint]
  · simp only [applyKeyframe, hhint]
  · intro tr
    simp only [applyKeyframe, hhint]

/-- Witness for the amended C9 at a concrete state and keyframe. -/
theorem applyKeyframe_halflife_by_zoom_direction_witness :
    (⟨50, 1, 2, 3, TransitionType.Smooth, none⟩ : ZoomKeyframe).spring_hint = none ∧
    ((applyKeyframe ⟨⟨1, 2, 3⟩, ⟨4, 5, 6⟩, ⟨7, 8, 9⟩, 0.1, 0.2, 0⟩
        ⟨50, 1, 2, 3, TransitionType.Smooth, none⟩).panHL = 0.22 ∧
     (applyKeyframe ⟨⟨1, 2, 3⟩, ⟨4, 5, 6⟩, ⟨7, 8, 9⟩, 0.1, 0.2, 0⟩
        ⟨50, 1, 2, 3, TransitionType.Smooth, none⟩).zoomHL =
      (if (advanceSprings ⟨⟨1, 2, 3⟩, ⟨4, 5, 6⟩, ⟨7, 8, 9⟩, 0.1, 0.2, 0⟩
            (⟨50, 1, 2, 3, TransitionType.Smooth, none⟩ : ZoomKeyframe).time_ms
          ).zoomSpring.position <
          (⟨50, 1, 2, 3, TransitionType.Smooth, none⟩ : ZoomKeyframe).zoom_level
        then 0.25
       else if (⟨50, 1, 2, 3, TransitionType.Smooth, none⟩ : ZoomKeyframe).zoom_level <
          (advanceSprings ⟨⟨1, 2, 3⟩, ⟨4, 5, 6⟩, ⟨7, 8, 9⟩, 0.1, 0.2, 0⟩
            (⟨50, 1, 2, 3, TransitionType.Smooth, none⟩ : ZoomKeyframe).time_ms
          ).zoomSpring.position
         then 0.35
       else (advanceSprings ⟨⟨1, 2, 3⟩, ⟨4, 5, 6⟩, ⟨7, 8, 9⟩, 0.1, 0.2, 0⟩
          (⟨50, 1, 2, 3, TransitionType.Smooth, none⟩ : ZoomKeyframe).time_ms).zoomHL) ∧
     ∀ tr : TransitionType,
       applyKeyframe ⟨⟨1, 2, 3⟩, ⟨4, 5, 6⟩, ⟨7, 8, 9⟩, 0.1, 0.2, 0⟩
           { (⟨50, 1, 2, 3, TransitionType.Smooth, none⟩ : ZoomKeyframe) with
             transition := tr } =
         applyKeyframe ⟨⟨1, 2, 3⟩, ⟨4, 5, 6⟩, ⟨7, 8, 9⟩, 0.1, 0.2, 0⟩
           ⟨50, 1, 2, 3, TransitionType.Smooth, none⟩) :=
  ⟨rfl, applyKeyframe_halflife_by_zoom_direction
    ⟨⟨1, 2, 3⟩, ⟨4, 5, 6⟩, ⟨7, 8, 9⟩, 0.1, 0.2, 0⟩
    ⟨50, 1, 2, 3, TransitionType.Smooth, none⟩ rfl⟩

end Snappi
